import Mathlib

/-
Verification of the habit/streak/calendar core of `src/fellaskeeper.py`.

Modelling conventions (shallow embedding):
- Python `datetime.date` values are modelled by the structure `PyDate`
  (proleptic Gregorian calendar). `date.toordinal()` is `toOrd`
  (`toOrd ⟨1, 1, 1⟩ = 1`), `date.weekday()` is `weekday`
  (`0` is Monday, matching `toOrd ⟨1, 1, 1⟩` falling on a Monday),
  and `+ / - timedelta(days = k)` is `addDays` / `subDays`
  (iterated calendar successor / predecessor, proved below to shift
  `toOrd` by exactly `k`).
- SQL result sets are modelled by lists handed to the functions: the
  per-(user, habit) completion rows as a `List PyDate`, the per-user
  check-in rows as a `List Int` of ordinals (the streak code only ever
  subtracts and compares whole days, never inspecting year/month/day).
  `SELECT DISTINCT date ... ORDER BY date ASC` is `sortedDates`.
- Date comparison in SQL (`date >= %s AND date <= %s`) is calendar order,
  i.e. comparison of ordinals (`dateLe`).
-/

structure PyDate where
  year : Nat
  month : Nat
  day : Nat
deriving DecidableEq

/-- Gregorian leap-year test, as used by Python `calendar`/`datetime`. -/
def isLeap (y : Nat) : Bool :=
  (y % 4 == 0 && y % 100 != 0) || (y % 400 == 0)

/-- Length of a month (`m` in `1..12`; any other argument yields junk `31`). -/
def daysInMonth (L : Bool) (m : Nat) : Nat :=
  if m = 2 then (if L then 29 else 28)
  else if m = 4 then 30
  else if m = 6 then 30
  else if m = 9 then 30
  else if m = 11 then 30
  else 31

/-- Days of the year strictly before month `m` (`m` in `1..13`). -/
def daysBeforeMonth (L : Bool) : Nat → Nat
  | 0 => 0
  | 1 => 0
  | m + 2 => daysBeforeMonth L (m + 1) + daysInMonth L (m + 1)

/-- Days strictly before January 1 of year `y` (proleptic Gregorian,
counted from day 1 = 0001-01-01, as in Python `date.toordinal`). -/
def daysBeforeYear (y : Nat) : Int :=
  365 * ((y : Int) - 1) + (((y - 1) / 4 : Nat) : Int)
    - (((y - 1) / 100 : Nat) : Int) + (((y - 1) / 400 : Nat) : Int)

/-- `date.toordinal()`: 0001-01-01 has ordinal 1. -/
def toOrd (d : PyDate) : Int :=
  daysBeforeYear d.year + (daysBeforeMonth (isLeap d.year) d.month : Int) + (d.day : Int)

/-- The dates representable as Python `date` objects (year bound ignored:
the calendar is extended past year 9999). -/
abbrev ValidDate (d : PyDate) : Prop :=
  1 ≤ d.year ∧ 1 ≤ d.month ∧ d.month ≤ 12 ∧ 1 ≤ d.day ∧
    d.day ≤ daysInMonth (isLeap d.year) d.month

/-- `date.weekday()`: 0 = Monday ... 6 = Sunday. -/
def weekday (d : PyDate) : Nat := ((toOrd d - 1) % 7).toNat

/-- Calendar successor: embeds `+ timedelta(days=1)`. -/
def addOneDay (d : PyDate) : PyDate :=
  if d.day < daysInMonth (isLeap d.year) d.month then ⟨d.year, d.month, d.day + 1⟩
  else if d.month < 12 then ⟨d.year, d.month + 1, 1⟩
  else ⟨d.year + 1, 1, 1⟩

/-- Calendar predecessor: embeds `- timedelta(days=1)`. -/
def subOneDay (d : PyDate) : PyDate :=
  if 1 < d.day then ⟨d.year, d.month, d.day - 1⟩
  else if 1 < d.month then ⟨d.year, d.month - 1, daysInMonth (isLeap d.year) (d.month - 1)⟩
  else ⟨d.year - 1, 12, 31⟩

/-- Embeds `+ timedelta(days=k)`. -/
def addDays (d : PyDate) (k : Nat) : PyDate := addOneDay^[k] d

/-- Embeds `- timedelta(days=k)`. -/
def subDays (d : PyDate) (k : Nat) : PyDate := subOneDay^[k] d

def kindDaily : String := "daily"
def kindWeekly : String := "weekly"
def kindMonthly : String := "monthly"

/-- An unrecognized recurrence kind, used to probe the defensive default. -/
def kindYearly : String := "yearly"

/-- `get_current_period_start` of `src/fellaskeeper.py` (lines 64-79). -/
def get_current_period_start (reset_period : String) (target_date : PyDate) : PyDate :=
  if reset_period = kindDaily then target_date
  else if reset_period = kindWeekly then subDays target_date (weekday target_date)
  else if reset_period = kindMonthly then ⟨target_date.year, target_date.month, 1⟩
  else target_date

/-- SQL date comparison `date <= %s` (calendar order). -/
def dateLe (a b : PyDate) : Bool := decide (toOrd a ≤ toOrd b)

/-- The monthly `period_end` computation of `src/fellaskeeper.py`
(lines 105-108 and 519-522): subtract one day from the first day of the
following month, with December rolling into January of the next year. -/
def monthlyPeriodEnd (period_start : PyDate) : PyDate :=
  if period_start.month = 12 then subOneDay ⟨period_start.year + 1, 1, 1⟩
  else subOneDay ⟨period_start.year, period_start.month + 1, 1⟩

/-- `is_habit_completed_in_period` of `src/fellaskeeper.py` (lines 81-118),
with the DB rows for the (user, habit) pair abstracted as `records`.
Note the dispatch: `daily`, then `weekly`, then an `else` branch marked
`# monthly` that also receives every unrecognized kind. -/
def is_habit_completed_in_period (records : List PyDate) (reset_period : String)
    (target_date : PyDate) : Bool :=
  let period_start := get_current_period_start reset_period target_date
  if reset_period = kindDaily then
    records.any (fun r => r == period_start)
  else if reset_period = kindWeekly then
    let period_end := addDays period_start 6
    records.any (fun r => dateLe period_start r && dateLe r period_end)
  else
    let period_end := monthlyPeriodEnd period_start
    records.any (fun r => dateLe period_start r && dateLe r period_end)

/-- Spec-side period end (spec section 4.1, stated in the spec's own words,
for comparison with the code): daily ends on the date itself, weekly ends
six days after the Monday period start, monthly ends on the last day of the
date's month. -/
def period_end_spec (kind : String) (t : PyDate) : PyDate :=
  if kind = kindDaily then t
  else if kind = kindWeekly then addDays (subDays t (weekday t)) 6
  else ⟨t.year, t.month, daysInMonth (isLeap t.year) t.month⟩

inductive MarkOutcome where
  | marked : MarkOutcome
  | alreadyDone : MarkOutcome
deriving DecidableEq

/-- The mark-done flow of the `daily` command (lines 368-383): check for a
completion on today's exact date and insert only if absent. -/
def markDoneDaily (records : List PyDate) (today : PyDate) : List PyDate × MarkOutcome :=
  if records.any (fun r => r == today) then (records, MarkOutcome.alreadyDone)
  else (records ++ [today], MarkOutcome.marked)

/-- The mark-done flow of the `weekly` command (lines 441-458). -/
def markDoneWeekly (records : List PyDate) (today : PyDate) : List PyDate × MarkOutcome :=
  let period_start := get_current_period_start kindWeekly today
  let period_end := addDays period_start 6
  if records.any (fun r => dateLe period_start r && dateLe r period_end) then
    (records, MarkOutcome.alreadyDone)
  else (records ++ [today], MarkOutcome.marked)

/-- The mark-done flow of the `monthly` command (lines 516-536). -/
def markDoneMonthly (records : List PyDate) (today : PyDate) : List PyDate × MarkOutcome :=
  let period_start := get_current_period_start kindMonthly today
  let period_end := monthlyPeriodEnd period_start
  if records.any (fun r => dateLe period_start r && dateLe r period_end) then
    (records, MarkOutcome.alreadyDone)
  else (records ++ [today], MarkOutcome.marked)

/-- The progress update of `updategoal` (line 297):
`UPDATE goals SET progress = LEAST(progress + increment, total)`. -/
def updategoal (progress total increment : Int) : Int :=
  min (progress + increment) total

/-- `SELECT DISTINCT date ... ORDER BY date ASC` (lines 694-697): the stored
check-in dates, deduplicated and sorted ascending. -/
def sortedDates (stored : List Int) : List Int :=
  List.insertionSort (fun a b => a ≤ b) stored.dedup

/-- The longest-streak loop of `get_streak` (lines 713-721):
`streak` resets to 1 at every gap other than exactly one day, `longest`
tracks the maximum. -/
def longestLoop : List Int → Int → Nat → Nat → Nat
  | [], _, _, longest => longest
  | d :: rest, prev, streak, longest =>
    if d - prev = 1 then longestLoop rest d (streak + 1) (max longest (streak + 1))
    else longestLoop rest d 1 longest

/-- The current-streak loop of `get_streak` (lines 724-730): walk the sorted
list from its last element while it matches `current_date`, decrementing
`current_date` one day at a time.  Modelled on the reversed list. -/
def currentLoop : List Int → Int → Nat → Nat
  | [], _, count => count
  | d :: rest, current_date, count =>
    if d = current_date then currentLoop rest (current_date - 1) (count + 1) else count

/-- Body of `get_streak` after the rows are fetched (lines 701-732). -/
def streakOfSorted : List Int → Int → Nat × Nat
  | [], _ => (0, 0)
  | p :: t, today => (currentLoop (p :: t).reverse today 0, longestLoop t p 1 1)

/-- `get_streak` of `src/fellaskeeper.py` (lines 687-732); the same logic is
inlined in the `streak` command (lines 844-862).  `stored` is the user's
check-in dates as stored (any order, duplicates possible); the SQL
`DISTINCT ... ORDER BY` step is `sortedDates`. -/
def get_streak (stored : List Int) (today : Int) : Nat × Nat :=
  streakOfSorted (sortedDates stored) today

/-- `k` consecutive calendar days starting at `a` all carry a check-in. -/
def hasRun (dates : List Int) (a : Int) (k : Nat) : Prop :=
  ∀ j : Nat, j < k → a + (j : Int) ∈ dates

/-- One inner loop of the year renderers (lines 661-668 / 906-911): emit up
to `m` consecutive day cells, stopping past `end_ord`; returns the cells and
the next `current_date`. -/
def takeCells : Nat → Int → Int → List Int × Int
  | 0, current_date, _ => ([], current_date)
  | m + 1, current_date, end_ord =>
    if end_ord < current_date then ([], current_date)
    else
      let rest := takeCells m (current_date + 1) end_ord
      (current_date :: rest.1, rest.2)

/-- The outer loop of the year renderers (lines 658-681 / 903-922): up to 27
rows of two blocks of 7 day cells; after emitting a row, stop once
`current_date` has passed `end_ord`. -/
def weekRows : Nat → Int → Int → List (List Int)
  | 0, _, _ => []
  | w + 1, current_date, end_ord =>
    let first := takeCells 7 current_date end_ord
    let second := takeCells 7 first.2 end_ord
    (first.1 ++ second.1) ::
      (if end_ord < second.2 then [] else weekRows w second.2 end_ord)

/-- The `mood_colors` mapping (lines 132-139); absent ratings render as the
white circle (`day_to_rating.get(current_date, None)`). -/
def moodColor : Option Nat → String
  | some 1 => "🔴"
  | some 2 => "🟠"
  | some 3 => "🟡"
  | some 4 => "🟢"
  | some 5 => "🔵"
  | _ => "⚪"

/-- `start_date` (line 144). -/
def yearStart (y : Nat) : PyDate := ⟨y, 1, 1⟩

/-- `end_date` (line 145). -/
def yearEnd (y : Nat) : PyDate := ⟨y, 12, 31⟩

/-- The grid of dates traversed by `myyear` / `myhabityear`, one inner list
per rendered row. -/
def yearRows (y : Nat) : List (List Int) :=
  weekRows 27 (toOrd (yearStart y)) (toOrd (yearEnd y))

/-- The glyph grid rendered by `myyear` (lines 900-922): each traversed date
is looked up in the sparse rating map and rendered via `mood_colors`
(row separators `\t` and `\n` are presentation and not modelled). -/
def myyearGrid (y : Nat) (rating : Int → Option Nat) : List (List String) :=
  (yearRows y).map (fun row => row.map (fun d => moodColor (rating d)))

/-! ### Helper lemmas: month and year tables -/

theorem daysInMonth_pos (L : Bool) (m : Nat) : 1 ≤ daysInMonth L m := by
  unfold daysInMonth; split_ifs <;> omega

theorem daysBeforeMonth_succ (L : Bool) (m : Nat) (h : 1 ≤ m) :
    daysBeforeMonth L (m + 1) = daysBeforeMonth L m + daysInMonth L m := by
  cases m with
  | zero => omega
  | succ n => rfl

theorem daysBeforeMonth_mono (L : Bool) {m n : Nat} (h1 : 1 ≤ m) (h : m ≤ n) :
    daysBeforeMonth L m ≤ daysBeforeMonth L n := by
  induction n with
  | zero => omega
  | succ k ih =>
    rcases Nat.lt_or_ge m (k + 1) with hlt | hge
    · have hk : 1 ≤ k := by omega
      have := ih (by omega)
      rw [daysBeforeMonth_succ L k hk]
      omega
    · have : m = k + 1 := by omega
      subst this; exact le_refl _

theorem daysBeforeMonth_13 (L : Bool) :
    daysBeforeMonth L 13 = 365 + (if L then 1 else 0) := by
  cases L <;> decide

theorem dayOfYear_le (L : Bool) {m d : Nat} (h1 : 1 ≤ m) (h12 : m ≤ 12)
    (hd : d ≤ daysInMonth L m) :
    daysBeforeMonth L m + d ≤ 365 + (if L then 1 else 0) := by
  have h2 : daysBeforeMonth L m + d ≤ daysBeforeMonth L (m + 1) := by
    rw [daysBeforeMonth_succ L m h1]; omega
  have h3 : daysBeforeMonth L (m + 1) ≤ daysBeforeMonth L 13 :=
    daysBeforeMonth_mono L (by omega) (by omega)
  rw [daysBeforeMonth_13] at h3
  omega

theorem daysBeforeYear_succ (y : Nat) (h : 1 ≤ y) :
    daysBeforeYear (y + 1) = daysBeforeYear y + 365 + (if isLeap y then 1 else 0) := by
  unfold daysBeforeYear
  have e4 : (y + 1 - 1) / 4 = (y - 1) / 4 + if 4 ∣ y then 1 else 0 := by
    have := Nat.succ_div (y - 1) 4
    have hy : y - 1 + 1 = y := by omega
    rw [hy] at this
    simpa using this
  have e100 : (y + 1 - 1) / 100 = (y - 1) / 100 + if 100 ∣ y then 1 else 0 := by
    have := Nat.succ_div (y - 1) 100
    have hy : y - 1 + 1 = y := by omega
    rw [hy] at this
    simpa using this
  have e400 : (y + 1 - 1) / 400 = (y - 1) / 400 + if 400 ∣ y then 1 else 0 := by
    have := Nat.succ_div (y - 1) 400
    have hy : y - 1 + 1 = y := by omega
    rw [hy] at this
    simpa using this
  rw [e4, e100, e400]
  have hleap : (if isLeap y then (1 : Int) else 0) =
      (if 4 ∣ y then (1 : Int) else 0) - (if 100 ∣ y then 1 else 0)
        + (if 400 ∣ y then 1 else 0) := by
    simp only [isLeap, Bool.or_eq_true, Bool.and_eq_true, beq_iff_eq, bne_iff_ne,
      Nat.dvd_iff_mod_eq_zero]
    split_ifs <;> omega
  push_cast
  rw [hleap]
  split_ifs <;> push_cast <;> ring

theorem daysBeforeYear_le {y n : Nat} (h1 : 1 ≤ y) (h : y ≤ n) :
    daysBeforeYear y ≤ daysBeforeYear n := by
  induction n with
  | zero => omega
  | succ k ih =>
    rcases Nat.lt_or_ge y (k + 1) with hlt | hge
    · have hk : 1 ≤ k := by omega
      have := ih (by omega)
      rw [daysBeforeYear_succ k hk]
      split_ifs <;> omega
    · have : y = k + 1 := by omega
      subst this; exact le_refl _

theorem daysBeforeYear_nonneg {y : Nat} (h : 1 ≤ y) : 0 ≤ daysBeforeYear y := by
  have h1 : daysBeforeYear 1 = 0 := by decide
  have := daysBeforeYear_le (le_refl 1) h
  omega

theorem toOrd_pos {d : PyDate} (h : ValidDate d) : 1 ≤ toOrd d := by
  obtain ⟨hy, _, _, hd, _⟩ := h
  have := daysBeforeYear_nonneg hy
  unfold toOrd
  have : (0 : Int) ≤ (daysBeforeMonth (isLeap d.year) d.month : Int) := by positivity
  omega

/-! ### Helper lemmas: toOrd is strictly monotone and shifts by one day -/

theorem toOrd_lt_of_year_lt {a b : PyDate} (ha : ValidDate a) (hb : ValidDate b)
    (h : a.year < b.year) : toOrd a < toOrd b := by
  obtain ⟨hya, hma, hma2, hda, hda2⟩ := ha
  obtain ⟨hyb, hmb, hmb2, hdb, hdb2⟩ := hb
  have h1 : (daysBeforeMonth (isLeap a.year) a.month + a.day : Nat) ≤
      365 + (if isLeap a.year then 1 else 0) := dayOfYear_le _ hma hma2 hda2
  have h2 : daysBeforeYear (a.year + 1) =
      daysBeforeYear a.year + 365 + (if isLeap a.year then 1 else 0) :=
    daysBeforeYear_succ a.year hya
  have h3 : daysBeforeYear (a.year + 1) ≤ daysBeforeYear b.year :=
    daysBeforeYear_le (by omega) (by omega)
  unfold toOrd
  have h4 : (0 : Int) ≤ (daysBeforeMonth (isLeap b.year) b.month : Int) := by positivity
  split_ifs at h1 h2 <;> push_cast at h1 h2 ⊢ <;> omega

theorem toOrd_lt_of_month_lt {a b : PyDate} (ha : ValidDate a) (hb : ValidDate b)
    (hy : a.year = b.year) (h : a.month < b.month) : toOrd a < toOrd b := by
  obtain ⟨hya, hma, hma2, hda, hda2⟩ := ha
  obtain ⟨hyb, hmb, hmb2, hdb, hdb2⟩ := hb
  have h1 : daysBeforeMonth (isLeap a.year) a.month + a.day ≤
      daysBeforeMonth (isLeap a.year) (a.month + 1) := by
    rw [daysBeforeMonth_succ _ _ hma]; omega
  have h2 : daysBeforeMonth (isLeap a.year) (a.month + 1) ≤
      daysBeforeMonth (isLeap a.year) b.month := by
    rw [hy]; exact daysBeforeMonth_mono _ (by omega) (by omega)
  unfold toOrd
  rw [hy]
  rw [hy] at h1 h2
  omega

theorem toOrd_inj {a b : PyDate} (ha : ValidDate a) (hb : ValidDate b)
    (h : toOrd a = toOrd b) : a = b := by
  rcases Nat.lt_trichotomy a.year b.year with hy | hy | hy
  · exact absurd h (by have := toOrd_lt_of_year_lt ha hb hy; omega)
  · rcases Nat.lt_trichotomy a.month b.month with hm | hm | hm
    · exact absurd h (by have := toOrd_lt_of_month_lt ha hb hy hm; omega)
    · have hd : a.day = b.day := by
        unfold toOrd at h
        rw [hy, hm] at h
        omega
      cases a; cases b
      simp_all
    · exact absurd h (by have := toOrd_lt_of_month_lt hb ha hy.symm hm; omega)
  · exact absurd h (by have := toOrd_lt_of_year_lt hb ha hy; omega)

theorem addOneDay_spec {d : PyDate} (h : ValidDate d) :
    ValidDate (addOneDay d) ∧ toOrd (addOneDay d) = toOrd d + 1 := by
  obtain ⟨hy, hm, hm2, hd, hd2⟩ := h
  unfold addOneDay
  split_ifs with h1 h2
  · exact ⟨⟨hy, hm, hm2,
      show (1 : Nat) ≤ d.day + 1 by omega,
      show d.day + 1 ≤ daysInMonth (isLeap d.year) d.month by omega⟩, by
      unfold toOrd; dsimp only; push_cast; omega⟩
  · have hmono : daysBeforeMonth (isLeap d.year) (d.month + 1) =
        daysBeforeMonth (isLeap d.year) d.month + daysInMonth (isLeap d.year) d.month :=
      daysBeforeMonth_succ _ _ hm
    exact ⟨⟨hy,
      show (1 : Nat) ≤ d.month + 1 by omega,
      show d.month + 1 ≤ 12 by omega,
      show (1 : Nat) ≤ 1 from le_refl 1,
      show (1 : Nat) ≤ daysInMonth (isLeap d.year) (d.month + 1) from daysInMonth_pos _ _⟩, by
      unfold toOrd; dsimp only; rw [hmono]; push_cast; omega⟩
  · have hm12 : d.month = 12 := by omega
    have hday : d.day = 31 := by
      rw [hm12] at hd2 h1
      have h31 : daysInMonth (isLeap d.year) 12 = 31 := by unfold daysInMonth; norm_num
      omega
    have h31n : daysInMonth (isLeap (d.year + 1)) 1 = 31 := by unfold daysInMonth; norm_num
    refine ⟨⟨show 1 ≤ d.year + 1 by omega,
      show (1 : Nat) ≤ 1 from le_refl 1,
      show (1 : Nat) ≤ 12 by omega,
      show (1 : Nat) ≤ 1 from le_refl 1,
      show (1 : Nat) ≤ daysInMonth (isLeap (d.year + 1)) 1 by omega⟩, ?_⟩
    unfold toOrd
    dsimp only
    rw [daysBeforeYear_succ d.year hy]
    have h13 : daysBeforeMonth (isLeap d.year) 13 = 365 + (if isLeap d.year then 1 else 0) :=
      daysBeforeMonth_13 _
    have h12 : daysBeforeMonth (isLeap d.year) 13 =
        daysBeforeMonth (isLeap d.year) 12 + daysInMonth (isLeap d.year) 12 :=
      daysBeforeMonth_succ _ _ (by omega)
    have h31 : daysInMonth (isLeap d.year) 12 = 31 := by unfold daysInMonth; norm_num
    have h0 : daysBeforeMonth (isLeap (d.year + 1)) 1 = 0 := rfl
    rw [h0, hm12, hday]
    split_ifs at h13 ⊢ <;> push_cast <;> omega

theorem subOneDay_spec {d : PyDate} (h : ValidDate d) (h2 : 2 ≤ toOrd d) :
    ValidDate (subOneDay d) ∧ toOrd (subOneDay d) = toOrd d - 1 := by
  obtain ⟨hy, hm, hm2, hd, hd2⟩ := h
  unfold subOneDay
  split_ifs with hb1 hb2
  · exact ⟨⟨hy, hm, hm2,
      show (1 : Nat) ≤ d.day - 1 by omega,
      show d.day - 1 ≤ daysInMonth (isLeap d.year) d.month by omega⟩, by
      unfold toOrd; dsimp only; omega⟩
  · have hmono : daysBeforeMonth (isLeap d.year) d.month =
        daysBeforeMonth (isLeap d.year) (d.month - 1) +
          daysInMonth (isLeap d.year) (d.month - 1) := by
      have := daysBeforeMonth_succ (isLeap d.year) (d.month - 1) (by omega)
      have hme : d.month - 1 + 1 = d.month := by omega
      rw [hme] at this
      exact this
    exact ⟨⟨hy,
      show (1 : Nat) ≤ d.month - 1 by omega,
      show d.month - 1 ≤ 12 by omega,
      show (1 : Nat) ≤ daysInMonth (isLeap d.year) (d.month - 1) from daysInMonth_pos _ _,
      show daysInMonth (isLeap d.year) (d.month - 1) ≤
        daysInMonth (isLeap d.year) (d.month - 1) from le_refl _⟩, by
      unfold toOrd; dsimp only; rw [hmono]; push_cast; omega⟩
  · have hm1 : d.month = 1 := by omega
    have hd1 : d.day = 1 := by omega
    have hy2 : 2 ≤ d.year := by
      by_contra hcon
      have hy1 : d.year = 1 := by omega
      have : toOrd d = 1 := by
        unfold toOrd
        rw [hy1, hm1, hd1]
        decide
      omega
    have hstep : daysBeforeYear (d.year - 1 + 1) =
        daysBeforeYear (d.year - 1) + 365 + (if isLeap (d.year - 1) then 1 else 0) :=
      daysBeforeYear_succ (d.year - 1) (by omega)
    have hyy : d.year - 1 + 1 = d.year := by omega
    rw [hyy] at hstep
    have h31n : daysInMonth (isLeap (d.year - 1)) 12 = 31 := by unfold daysInMonth; norm_num
    refine ⟨⟨show 1 ≤ d.year - 1 by omega,
      show (1 : Nat) ≤ 12 by omega,
      show (12 : Nat) ≤ 12 from le_refl 12,
      show (1 : Nat) ≤ 31 by omega,
      show (31 : Nat) ≤ daysInMonth (isLeap (d.year - 1)) 12 by omega⟩, ?_⟩
    unfold toOrd
    dsimp only
    have h13 : daysBeforeMonth (isLeap (d.year - 1)) 13 =
        365 + (if isLeap (d.year - 1) then 1 else 0) := daysBeforeMonth_13 _
    have h12 : daysBeforeMonth (isLeap (d.year - 1)) 13 =
        daysBeforeMonth (isLeap (d.year - 1)) 12 + daysInMonth (isLeap (d.year - 1)) 12 :=
      daysBeforeMonth_succ _ _ (by omega)
    have h0 : daysBeforeMonth (isLeap d.year) 1 = 0 := rfl
    rw [hm1, hd1, h0, hstep]
    split_ifs at h13 ⊢ <;> push_cast <;> omega

theorem addDays_spec {d : PyDate} (h : ValidDate d) (k : Nat) :
    ValidDate (addDays d k) ∧ toOrd (addDays d k) = toOrd d + k := by
  induction k with
  | zero => exact ⟨h, by simp [addDays]⟩
  | succ n ih =>
    have hstep : addDays d (n + 1) = addOneDay (addDays d n) := by
      unfold addDays
      exact Function.iterate_succ_apply' addOneDay n d
    have := addOneDay_spec ih.1
    rw [hstep]
    refine ⟨this.1, ?_⟩
    rw [this.2, ih.2]
    push_cast
    ring

theorem subDays_spec {d : PyDate} (h : ValidDate d) {k : Nat}
    (hk : (k : Int) ≤ toOrd d - 1) :
    ValidDate (subDays d k) ∧ toOrd (subDays d k) = toOrd d - k := by
  induction k with
  | zero => exact ⟨h, by simp [subDays]⟩
  | succ n ih =>
    have hn : (n : Int) ≤ toOrd d - 1 := by push_cast at hk ⊢; omega
    have ihn := ih hn
    have hstep : subDays d (n + 1) = subOneDay (subDays d n) := by
      unfold subDays
      exact Function.iterate_succ_apply' subOneDay n d
    have hord : 2 ≤ toOrd (subDays d n) := by
      rw [ihn.2]; push_cast at hk ⊢; omega
    have := subOneDay_spec ihn.1 hord
    rw [hstep]
    refine ⟨this.1, ?_⟩
    rw [this.2, ihn.2]
    push_cast
    ring

theorem weekday_cast (d : PyDate) : (weekday d : Int) = (toOrd d - 1) % 7 := by
  unfold weekday
  exact Int.toNat_of_nonneg (Int.emod_nonneg _ (by omega))

theorem weekday_lt (d : PyDate) : weekday d < 7 := by
  have h := weekday_cast d
  have : (toOrd d - 1) % 7 < 7 := Int.emod_lt_of_pos _ (by omega)
  omega

/-! ### Helper lemmas: sortedDates -/

theorem mem_sortedDates {stored : List Int} {x : Int} :
    x ∈ sortedDates stored ↔ x ∈ stored := by
  unfold sortedDates
  rw [(List.perm_insertionSort _ _).mem_iff, List.mem_dedup]

theorem sortedDates_sorted (stored : List Int) :
    List.Sorted (fun a b : Int => a ≤ b) (sortedDates stored) :=
  List.sorted_insertionSort _ _

theorem sortedDates_nodup (stored : List Int) : (sortedDates stored).Nodup := by
  unfold sortedDates
  exact (List.perm_insertionSort _ _).nodup_iff.mpr (List.nodup_dedup _)

theorem sortedDates_pairwise_lt (stored : List Int) :
    List.Pairwise (fun a b : Int => a < b) (sortedDates stored) := by
  have h1 := sortedDates_sorted stored
  have h2 := sortedDates_nodup stored
  exact (h1.and h2).imp (fun h => lt_of_le_of_ne h.1 h.2)

theorem sortedDates_idem (stored : List Int) :
    sortedDates (sortedDates stored) = sortedDates stored := by
  show List.insertionSort (fun a b : Int => a ≤ b) (sortedDates stored).dedup = sortedDates stored
  rw [List.dedup_eq_self.mpr (sortedDates_nodup stored)]
  exact (sortedDates_sorted stored).insertionSort_eq

/-! ### Helper lemmas: the longest-streak loop -/

theorem longestLoop_le (rest : List Int) :
    ∀ (prev : Int) (s L : Nat), L ≤ longestLoop rest prev s L := by
  induction rest with
  | nil => intro prev s L; exact le_refl L
  | cons d rest ih =>
    intro prev s L
    simp only [longestLoop]
    split_ifs with h
    · exact le_trans (le_max_left _ _) (ih d (s + 1) (max L (s + 1)))
    · exact ih d 1 L

theorem endRun_hasRun {l : List Int} {e : Int} {k : Nat}
    (h : ∀ j : Nat, j < k → e - (j : Int) ∈ l) : hasRun l (e - (k : Int) + 1) k := by
  intro j hj
  have hmem := h (k - 1 - j) (by omega)
  have heq : e - (k : Int) + 1 + (j : Int) = e - ((k - 1 - j : Nat) : Int) := by omega
  rw [heq]
  exact hmem

theorem longestLoop_sound (l : List Int) (rest : List Int) :
    ∀ (prev : Int) (s L : Nat),
    (∀ x ∈ rest, x ∈ l) →
    (∀ j : Nat, j < s → prev - (j : Int) ∈ l) →
    (∃ a, hasRun l a L) →
    ∃ a, hasRun l a (longestLoop rest prev s L) := by
  induction rest with
  | nil => intro prev s L _ _ hL; exact hL
  | cons d rest ih =>
    intro prev s L hsub hrun hL
    have hd : d ∈ l := hsub d (List.mem_cons_self d rest)
    simp only [longestLoop]
    split_ifs with hgap
    · have hrun2 : ∀ j : Nat, j < s + 1 → d - (j : Int) ∈ l := by
        intro j hj
        rcases Nat.eq_zero_or_pos j with rfl | hjpos
        · simpa using hd
        · have hmem := hrun (j - 1) (by omega)
          have heq : d - (j : Int) = prev - ((j - 1 : Nat) : Int) := by omega
          rw [heq]
          exact hmem
      apply ih d (s + 1) (max L (s + 1)) (fun x hx => hsub x (List.mem_cons_of_mem d hx)) hrun2
      rcases max_cases L (s + 1) with ⟨hm, _⟩ | ⟨hm, _⟩
      · rw [hm]; exact hL
      · rw [hm]; exact ⟨d - ((s + 1 : Nat) : Int) + 1, endRun_hasRun hrun2⟩
    · apply ih d 1 L (fun x hx => hsub x (List.mem_cons_of_mem d hx))
      · intro j hj
        have : j = 0 := by omega
        subst this
        simpa using hd
      · exact hL

theorem longestLoop_complete (l : List Int) (rest : List Int) :
    ∀ (prev : Int) (s L : Nat),
    List.Pairwise (fun a b : Int => a < b) (prev :: rest) →
    (∀ x ∈ l, x ≤ prev ∨ x ∈ rest) →
    1 ≤ s → s ≤ L →
    (prev - (s : Int)) ∉ l →
    (∀ (a : Int) (k : Nat), hasRun l a k → a + (k : Int) ≤ prev + 1 → k ≤ L) →
    ∀ (a : Int) (k : Nat), hasRun l a k → k ≤ longestLoop rest prev s L := by
  induction rest with
  | nil =>
    intro prev s L hpw hcov hs hsL hnot hbound a k hrunk
    rcases Nat.eq_zero_or_pos k with rfl | hk
    · exact Nat.zero_le L
    · have hend : a + ((k - 1 : Nat) : Int) ∈ l := hrunk (k - 1) (by omega)
      have hle : a + ((k - 1 : Nat) : Int) ≤ prev := by
        rcases hcov _ hend with h | h
        · exact h
        · exact absurd h (List.not_mem_nil _)
      exact hbound a k hrunk (by omega)
  | cons c rest ih =>
    intro prev s L hpw hcov hs hsL hnot hbound a k hrunk
    rw [List.pairwise_cons] at hpw
    obtain ⟨hprevlt, hpw2⟩ := hpw
    have hpc : prev < c := hprevlt c (List.mem_cons_self c rest)
    have hclt : ∀ x ∈ rest, c < x := (List.pairwise_cons.mp hpw2).1
    have hcov2 : ∀ x ∈ l, x ≤ c ∨ x ∈ rest := by
      intro x hx
      rcases hcov x hx with h | h
      · exact Or.inl (by omega)
      · rcases List.mem_cons.mp h with rfl | hin
        · exact Or.inl (le_refl x)
        · exact Or.inr hin
    simp only [longestLoop]
    split_ifs with hgap
    · apply ih c (s + 1) (max L (s + 1)) hpw2 hcov2 (by omega)
        (le_max_right _ _) ?_ ?_ a k hrunk
      · have heq : c - ((s + 1 : Nat) : Int) = prev - (s : Int) := by omega
        rw [heq]
        exact hnot
      · intro b m hr hbm
        rcases le_or_lt (b + (m : Int)) (prev + 1) with hle2 | hgt2
        · exact le_trans (hbound b m hr hle2) (le_max_left _ _)
        · by_contra hcon
          have hm2 : s + 2 ≤ m := by
            have := le_max_right L (s + 1)
            omega
          have hmem := hr (m - (s + 2)) (by omega)
          have heq : b + ((m - (s + 2) : Nat) : Int) = prev - (s : Int) := by omega
          rw [heq] at hmem
          exact hnot hmem
    · have hc2 : prev + 2 ≤ c := by omega
      have hcm1 : c - 1 ∉ l := by
        intro hmem
        rcases hcov _ hmem with h | h
        · omega
        · rcases List.mem_cons.mp h with heq | hin
          · omega
          · have := hclt _ hin; omega
      apply ih c 1 L hpw2 hcov2 (le_refl 1) (le_trans hs hsL) ?_ ?_ a k hrunk
      · simpa using hcm1
      · intro b m hr hbm
        rcases Nat.eq_zero_or_pos m with rfl | hm
        · exact Nat.zero_le L
        · have hend := hr (m - 1) (by omega)
          rcases hcov _ hend with hle2 | hin
          · exact hbound b m hr (by omega)
          · rcases List.mem_cons.mp hin with heq | hin2
            · rcases Nat.lt_or_ge m 2 with h1 | h2
              · omega
              · exfalso
                have hm2 := hr (m - 2) (by omega)
                have heq2 : b + ((m - 2 : Nat) : Int) = c - 1 := by omega
                rw [heq2] at hm2
                exact hcm1 hm2
            · have := hclt _ hin2
              omega

/-! ### Helper lemmas: the current-streak loop -/

theorem currentLoop_spec (l : List Int) (today : Int) (rl : List Int) :
    ∀ (c : Nat) (cur : Int),
    cur = today - (c : Int) →
    (∀ x ∈ rl, x ∈ l) →
    List.Pairwise (fun a b : Int => b < a) rl →
    (∀ x ∈ rl, x ≤ cur) →
    (∀ x ∈ l, x ≤ cur → x ∈ rl) →
    (∀ j : Nat, j < c → today - (j : Int) ∈ l) →
    (∀ j : Nat, j < currentLoop rl cur c → today - (j : Int) ∈ l) ∧
      (today - ((currentLoop rl cur c : Nat) : Int)) ∉ l := by
  induction rl with
  | nil =>
    intro c cur hcur _ _ _ hcov hcount
    simp only [currentLoop]
    refine ⟨hcount, fun hmem => ?_⟩
    exact absurd (hcov _ hmem (by omega)) (List.not_mem_nil _)
  | cons d rest ih =>
    intro c cur hcur hsub hpw hble hcov hcount
    have hdlt : ∀ x ∈ rest, x < d := (List.pairwise_cons.mp hpw).1
    have hpw2 := (List.pairwise_cons.mp hpw).2
    simp only [currentLoop]
    split_ifs with hd
    · apply ih (c + 1) (cur - 1) (by push_cast; omega)
        (fun x hx => hsub x (List.mem_cons_of_mem d hx)) hpw2
      · intro x hx
        have := hdlt x hx
        omega
      · intro x hx hxle
        have hin := hcov x hx (by omega)
        rcases List.mem_cons.mp hin with heq | hin2
        · exfalso; omega
        · exact hin2
      · intro j hj
        rcases Nat.lt_or_ge j c with h1 | h2
        · exact hcount j h1
        · have hjc : j = c := by omega
          subst hjc
          have heq : today - (j : Int) = d := by omega
          rw [heq]
          exact hsub d (List.mem_cons_self d rest)
    · refine ⟨hcount, fun hmem => ?_⟩
      have hin := hcov _ hmem (by omega)
      rcases List.mem_cons.mp hin with heq | hin2
      · omega
      · have h1 := hdlt _ hin2
        have h2 := hble d (List.mem_cons_self d rest)
        omega

/-! ### Helper lemmas: the year-grid loops -/

theorem takeCells_eq (m : Nat) : ∀ (cur e : Int),
    takeCells m cur e =
      ((List.range (min m (e + 1 - cur).toNat)).map (fun i : Nat => cur + (i : Int)),
        cur + ((min m (e + 1 - cur).toNat : Nat) : Int)) := by
  induction m with
  | zero =>
    intro cur e
    simp [takeCells]
  | succ n ih =>
    intro cur e
    simp only [takeCells]
    split_ifs with h
    · have ht : (e + 1 - cur).toNat = 0 := by omega
      rw [ht]
      simp
    · have ht : 1 ≤ (e + 1 - cur).toNat := by omega
      rw [ih (cur + 1) e]
      have ht2 : (e + 1 - (cur + 1)).toNat = (e + 1 - cur).toNat - 1 := by omega
      have hmin : min (n + 1) (e + 1 - cur).toNat =
          min n ((e + 1 - cur).toNat - 1) + 1 := by omega
      rw [ht2, hmin]
      simp only [Prod.mk.injEq]
      constructor
      · rw [List.range_succ_eq_map, List.map_cons, List.map_map]
        have h0 : cur + ((0 : Nat) : Int) = cur := by norm_num
        rw [h0]
        congr 1
        apply List.map_congr_left
        intro i _
        simp only [Function.comp_apply]
        push_cast
        ring
      · push_cast
        ring

theorem range_map_append (cur : Int) (a b : Nat) :
    (List.range a).map (fun i : Nat => cur + (i : Int)) ++
      (List.range b).map (fun i : Nat => cur + (a : Int) + (i : Int)) =
    (List.range (a + b)).map (fun i : Nat => cur + (i : Int)) := by
  rw [List.range_add, List.map_append, List.map_map]
  congr 1
  apply List.map_congr_left
  intro i _
  simp only [Function.comp_apply]
  push_cast
  ring

theorem weekRows_spec (w : Nat) : ∀ (cur e : Int),
    cur ≤ e → (e + 1 - cur).toNat ≤ 14 * w →
    ((weekRows w cur e).flatten =
      (List.range (e + 1 - cur).toNat).map (fun i : Nat => cur + (i : Int))) ∧
    ((weekRows w cur e).length = ((e + 1 - cur).toNat + 13) / 14) ∧
    (∀ row ∈ (weekRows w cur e).dropLast, row.length = 14) ∧
    (∀ row ∈ weekRows w cur e, 1 ≤ row.length ∧ row.length ≤ 14) := by
  induction w with
  | zero => intro cur e hce hle; exfalso; omega
  | succ w ih =>
    intro cur e hce hle
    have hn : 1 ≤ (e + 1 - cur).toNat := by omega
    simp only [weekRows]
    rw [takeCells_eq 7 cur e]
    rcases Nat.lt_or_ge (e + 1 - cur).toNat 15 with hc14 | hc15
    · -- at most 14 cells remain: a single final row
      have ha : min 7 (e + 1 - cur).toNat + min 7 ((e + 1 - cur).toNat
          - min 7 (e + 1 - cur).toNat) = (e + 1 - cur).toNat := by omega
      rw [takeCells_eq 7 (cur + ((min 7 (e + 1 - cur).toNat : Nat) : Int)) e]
      have ht2 : (e + 1 - (cur + ((min 7 (e + 1 - cur).toNat : Nat) : Int))).toNat =
          (e + 1 - cur).toNat - min 7 (e + 1 - cur).toNat := by omega
      rw [ht2]
      have hguard : e < cur + ((min 7 (e + 1 - cur).toNat : Nat) : Int) +
          ((min 7 ((e + 1 - cur).toNat - min 7 (e + 1 - cur).toNat) : Nat) : Int) := by
        omega
      rw [if_pos hguard, range_map_append]
      rw [ha]
      refine ⟨by simp, by simp; omega, by simp, ?_⟩
      intro row hrow
      rcases List.mem_singleton.mp hrow with rfl
      simp
      omega
    · -- a full row of 14, then recurse
      have ha : min 7 (e + 1 - cur).toNat = 7 := by omega
      rw [takeCells_eq 7 (cur + ((min 7 (e + 1 - cur).toNat : Nat) : Int)) e]
      have ht2 : (e + 1 - (cur + ((min 7 (e + 1 - cur).toNat : Nat) : Int))).toNat =
          (e + 1 - cur).toNat - min 7 (e + 1 - cur).toNat := by omega
      rw [ht2, ha]
      have hb : min 7 ((e + 1 - cur).toNat - 7) = 7 := by omega
      rw [hb]
      have hguard : ¬ (e < cur + ((7 : Nat) : Int) + ((7 : Nat) : Int)) := by
        push_cast
        omega
      rw [if_neg hguard]
      have hc2 : cur + ((7 : Nat) : Int) + ((7 : Nat) : Int) = cur + 14 := by push_cast; ring
      rw [hc2]
      have hce2 : cur + 14 ≤ e := by omega
      have hle2 : (e + 1 - (cur + 14)).toNat ≤ 14 * w := by omega
      obtain ⟨ihflat, ihlen, ihdrop, ihall⟩ := ih (cur + 14) e hce2 hle2
      have htt : (e + 1 - (cur + 14)).toNat = (e + 1 - cur).toNat - 14 := by omega
      rw [htt] at ihflat ihlen
      have hrowlen : ((List.range 7).map (fun i : Nat => cur + (i : Int)) ++
          (List.range 7).map (fun i : Nat => cur + ((7 : Nat) : Int) + (i : Int))).length = 14 := by
        simp
      have hne : weekRows w (cur + 14) e ≠ [] := by
        rw [← List.length_pos, ihlen]
        omega
      refine ⟨?_, ?_, ?_, ?_⟩
      · rw [List.flatten_cons, ihflat, range_map_append]
        have h77 : (7 + 7 : Nat) = 14 := by norm_num
        have hcast : (cur + 14 : Int) = cur + ((14 : Nat) : Int) := by push_cast; ring
        rw [h77, hcast, range_map_append]
        have hfin : (14 + ((e + 1 - cur).toNat - 14) : Nat) = (e + 1 - cur).toNat := by omega
        rw [hfin]
      · simp only [List.length_cons, ihlen]
        omega
      · rw [List.dropLast_cons_of_ne_nil hne]
        intro row hrow
        rcases List.mem_cons.mp hrow with rfl | hin
        · exact hrowlen
        · exact ihdrop row hin
      · intro row hrow
        rcases List.mem_cons.mp hrow with rfl | hin
        · rw [hrowlen]; omega
        · exact ihall row hin

/-- Length of the calendar year in days, as seen by `toOrd`. -/
theorem yearSpan (y : Nat) :
    toOrd (yearEnd y) + 1 - toOrd (yearStart y) =
      365 + (if isLeap y then 1 else 0) := by
  unfold yearStart yearEnd toOrd
  dsimp only
  have h13 : daysBeforeMonth (isLeap y) 13 = 365 + (if isLeap y then 1 else 0) :=
    daysBeforeMonth_13 _
  have h12 : daysBeforeMonth (isLeap y) 13 =
      daysBeforeMonth (isLeap y) 12 + daysInMonth (isLeap y) 12 :=
    daysBeforeMonth_succ _ _ (by omega)
  have h31 : daysInMonth (isLeap y) 12 = 31 := by unfold daysInMonth; norm_num
  have h0 : daysBeforeMonth (isLeap y) 1 = 0 := rfl
  rw [h0]
  split_ifs at h13 ⊢ <;> push_cast <;> omega

/-! ### Helper lemmas: period resolution -/

theorem dateLe_iff {a b : PyDate} : dateLe a b = true ↔ toOrd a ≤ toOrd b := by
  unfold dateLe
  exact decide_eq_true_iff

theorem monthlyPeriodEnd_eq (t : PyDate) (hm : 1 ≤ t.month) (hm2 : t.month ≤ 12) :
    monthlyPeriodEnd t = ⟨t.year, t.month, daysInMonth (isLeap t.year) t.month⟩ := by
  unfold monthlyPeriodEnd subOneDay
  by_cases h12 : t.month = 12
  · rw [if_pos h12]
    dsimp only
    rw [if_neg (by norm_num), if_neg (by norm_num), h12]
    have : daysInMonth (isLeap t.year) 12 = 31 := by unfold daysInMonth; norm_num
    rw [this]
    simp
  · rw [if_neg h12]
    dsimp only
    rw [if_neg (by norm_num), if_pos (by omega)]
    simp

theorem weekly_start_facts (t : PyDate) (ht : ValidDate t) :
    ValidDate (subDays t (weekday t)) ∧
      toOrd (subDays t (weekday t)) = toOrd t - (weekday t : Int) := by
  have hpos := toOrd_pos ht
  have hwc := weekday_cast t
  have hk : ((weekday t : Nat) : Int) ≤ toOrd t - 1 := by omega
  exact subDays_spec ht hk

theorem weekly_end_facts (t : PyDate) (ht : ValidDate t) :
    ValidDate (addDays (subDays t (weekday t)) 6) ∧
      toOrd (addDays (subDays t (weekday t)) 6) = toOrd t - (weekday t : Int) + 6 := by
  have hs := weekly_start_facts t ht
  have ha := addDays_spec hs.1 6
  refine ⟨ha.1, ?_⟩
  rw [ha.2, hs.2]
  norm_num

theorem gcps_weekly (t : PyDate) :
    get_current_period_start kindWeekly t = subDays t (weekday t) := by
  unfold get_current_period_start
  rw [if_neg (by decide), if_pos rfl]

theorem gcps_monthly (t : PyDate) :
    get_current_period_start kindMonthly t = ⟨t.year, t.month, 1⟩ := by
  unfold get_current_period_start
  rw [if_neg (by decide), if_neg (by decide), if_pos rfl]

/-! ### Claim theorems -/

/-- Claim C6: for every date, the weekly period containing it starts on a
Monday (the date minus its weekday index, Monday = 0), spans exactly 7 days,
ends at period_start + 6 days, and contains the date itself. -/
theorem c6_weekly_period (t : PyDate) (ht : ValidDate t) :
    ValidDate (get_current_period_start kindWeekly t) ∧
    weekday (get_current_period_start kindWeekly t) = 0 ∧
    toOrd (get_current_period_start kindWeekly t) = toOrd t - (weekday t : Int) ∧
    toOrd (addDays (get_current_period_start kindWeekly t) 6) =
      toOrd (get_current_period_start kindWeekly t) + 6 ∧
    toOrd (get_current_period_start kindWeekly t) ≤ toOrd t ∧
    toOrd t ≤ toOrd (addDays (get_current_period_start kindWeekly t) 6) := by
  rw [gcps_weekly]
  have hs := weekly_start_facts t ht
  have he := weekly_end_facts t ht
  have hwc := weekday_cast t
  have hpos := toOrd_pos ht
  have hmod : 0 ≤ (toOrd t - 1) % 7 ∧ (toOrd t - 1) % 7 < 7 := by omega
  refine ⟨hs.1, ?_, hs.2, by rw [he.2, hs.2], by omega, by omega⟩
  have hwps := weekday_cast (subDays t (weekday t))
  rw [hs.2, hwc] at hwps
  omega

/-- Witness for C6 at the concrete date 2024-05-17 (a Friday): the weekly
period start is a Monday. -/
theorem c6_weekly_period_witness :
    weekday (get_current_period_start kindWeekly ⟨2024, 5, 17⟩) = 0 :=
  (c6_weekly_period ⟨2024, 5, 17⟩ (by decide)).2.1

/-- Claim C5: for every date, the monthly period starts on the first day of
the date's month and ends on the last day of that month (the code computes
the end by subtracting one day from the first day of the following month,
`monthlyPeriodEnd`), and the period contains the date. -/
theorem c5_monthly_period (t : PyDate) (ht : ValidDate t) :
    get_current_period_start kindMonthly t = ⟨t.year, t.month, 1⟩ ∧
    monthlyPeriodEnd (get_current_period_start kindMonthly t) =
      ⟨t.year, t.month, daysInMonth (isLeap t.year) t.month⟩ ∧
    ValidDate (monthlyPeriodEnd (get_current_period_start kindMonthly t)) ∧
    toOrd (get_current_period_start kindMonthly t) ≤ toOrd t ∧
    toOrd t ≤ toOrd (monthlyPeriodEnd (get_current_period_start kindMonthly t)) := by
  obtain ⟨hy, hm, hm2, hd, hd2⟩ := ht
  rw [gcps_monthly]
  have hend := monthlyPeriodEnd_eq ⟨t.year, t.month, 1⟩ hm hm2
  rw [hend]
  have hvalid : ValidDate (⟨t.year, t.month, daysInMonth (isLeap t.year) t.month⟩ : PyDate) :=
    ⟨hy, hm, hm2, daysInMonth_pos _ _, le_refl _⟩
  refine ⟨rfl, rfl, hvalid, ?_, ?_⟩
  · unfold toOrd
    dsimp only
    omega
  · unfold toOrd
    dsimp only
    omega

/-- Witness for C5 at 2024-02-10: leap-February ends on Feb 29. -/
theorem c5_monthly_period_witness :
    monthlyPeriodEnd (get_current_period_start kindMonthly ⟨2024, 2, 10⟩) =
      ⟨2024, 2, 29⟩ :=
  (c5_monthly_period ⟨2024, 2, 10⟩ (by decide)).2.1

/-- Claim C2: for each recognized recurrence kind, the completion check
returns true iff at least one record date lies in the inclusive range from
the period start to the (spec-side) period end of the period containing the
target date; for daily the range collapses to the single target date. -/
theorem c2_completion_oracle (records : List PyDate) (kind : String) (t : PyDate)
    (hkind : kind = kindDaily ∨ kind = kindWeekly ∨ kind = kindMonthly)
    (ht : ValidDate t) (hrec : ∀ r ∈ records, ValidDate r) :
    is_habit_completed_in_period records kind t = true ↔
      ∃ r ∈ records, toOrd (get_current_period_start kind t) ≤ toOrd r ∧
        toOrd r ≤ toOrd (period_end_spec kind t) := by
  rcases hkind with rfl | rfl | rfl
  · have hps : get_current_period_start kindDaily t = t := rfl
    have hpe : period_end_spec kindDaily t = t := rfl
    have hbody : is_habit_completed_in_period records kindDaily t =
        records.any (fun r => r == t) := rfl
    rw [hps, hpe, hbody, List.any_eq_true]
    constructor
    · rintro ⟨r, hr, hrt⟩
      rw [beq_iff_eq] at hrt
      subst hrt
      exact ⟨r, hr, le_refl _, le_refl _⟩
    · rintro ⟨r, hr, h1, h2⟩
      refine ⟨r, hr, ?_⟩
      rw [beq_iff_eq]
      exact toOrd_inj (hrec r hr) ht (le_antisymm h2 h1)
  · have hbody : is_habit_completed_in_period records kindWeekly t =
        records.any (fun r => dateLe (get_current_period_start kindWeekly t) r &&
          dateLe r (addDays (get_current_period_start kindWeekly t) 6)) := rfl
    have hpe : period_end_spec kindWeekly t =
        addDays (get_current_period_start kindWeekly t) 6 := by
      unfold period_end_spec
      rw [if_neg (by decide), if_pos rfl, gcps_weekly]
    rw [hbody, hpe, List.any_eq_true]
    constructor
    · rintro ⟨r, hr, hb⟩
      rw [Bool.and_eq_true, dateLe_iff, dateLe_iff] at hb
      exact ⟨r, hr, hb.1, hb.2⟩
    · rintro ⟨r, hr, h1, h2⟩
      refine ⟨r, hr, ?_⟩
      rw [Bool.and_eq_true, dateLe_iff, dateLe_iff]
      exact ⟨h1, h2⟩
  · obtain ⟨hy, hm, hm2, hd, hd2⟩ := ht
    have hbody : is_habit_completed_in_period records kindMonthly t =
        records.any (fun r => dateLe (get_current_period_start kindMonthly t) r &&
          dateLe r (monthlyPeriodEnd (get_current_period_start kindMonthly t))) := rfl
    have hpe : monthlyPeriodEnd (get_current_period_start kindMonthly t) =
        period_end_spec kindMonthly t := by
      rw [gcps_monthly, monthlyPeriodEnd_eq ⟨t.year, t.month, 1⟩ hm hm2]
      unfold period_end_spec
      rw [if_neg (by decide), if_neg (by decide)]
    rw [hbody, hpe, List.any_eq_true]
    constructor
    · rintro ⟨r, hr, hb⟩
      rw [Bool.and_eq_true, dateLe_iff, dateLe_iff] at hb
      exact ⟨r, hr, hb.1, hb.2⟩
    · rintro ⟨r, hr, h1, h2⟩
      refine ⟨r, hr, ?_⟩
      rw [Bool.and_eq_true, dateLe_iff, dateLe_iff]
      exact ⟨h1, h2⟩

/-- Witness for C2: a completion recorded on Monday 2024-05-13 satisfies the
weekly check on Friday 2024-05-17. -/
theorem c2_completion_oracle_witness :
    is_habit_completed_in_period [⟨2024, 5, 13⟩] kindWeekly ⟨2024, 5, 17⟩ = true :=
  (c2_completion_oracle [⟨2024, 5, 13⟩] kindWeekly ⟨2024, 5, 17⟩ (Or.inr (Or.inl rfl))
    (by decide) (by decide)).mpr ⟨⟨2024, 5, 13⟩, by decide, by decide, by decide⟩

/-- Counterexample to Claim C3 as stated: for the unrecognized kind
`yearly` on 2024-06-15, a record on 2024-06-20 (a different day, but in the
same month) makes the completion check return true, whereas evaluation over
the single-day period (the daily check on the same data) returns false. -/
theorem c3_unknown_kind_counterexample :
    is_habit_completed_in_period [⟨2024, 6, 20⟩] kindYearly ⟨2024, 6, 15⟩ = true ∧
    is_habit_completed_in_period [⟨2024, 6, 20⟩] kindDaily ⟨2024, 6, 15⟩ = false := by
  decide

/-- Claim C3 (amended): for an unrecognized recurrence kind the period
resolver returns the date itself as period start without raising, but the
completion check falls into the code's monthly `else` branch and evaluates
completion over the inclusive range from the date itself to the last day of
that date's month (not over the single-day period). -/
theorem c3_unknown_kind_amended (records : List PyDate) (kind : String) (t : PyDate)
    (h1 : kind ≠ kindDaily) (h2 : kind ≠ kindWeekly) (h3 : kind ≠ kindMonthly)
    (ht : ValidDate t) :
    get_current_period_start kind t = t ∧
    (is_habit_completed_in_period records kind t = true ↔
      ∃ r ∈ records, toOrd t ≤ toOrd r ∧
        toOrd r ≤ toOrd (⟨t.year, t.month, daysInMonth (isLeap t.year) t.month⟩ : PyDate)) := by
  obtain ⟨hy, hm, hm2, hd, hd2⟩ := ht
  have hps : get_current_period_start kind t = t := by
    unfold get_current_period_start
    rw [if_neg h1, if_neg h2, if_neg h3]
  refine ⟨hps, ?_⟩
  have hbody : is_habit_completed_in_period records kind t =
      records.any (fun r => dateLe (get_current_period_start kind t) r &&
        dateLe r (monthlyPeriodEnd (get_current_period_start kind t))) := by
    simp only [is_habit_completed_in_period]
    rw [if_neg h1, if_neg h2]
  rw [hbody, hps, monthlyPeriodEnd_eq t hm hm2, List.any_eq_true]
  constructor
  · rintro ⟨r, hr, hb⟩
    rw [Bool.and_eq_true, dateLe_iff, dateLe_iff] at hb
    exact ⟨r, hr, hb.1, hb.2⟩
  · rintro ⟨r, hr, hh1, hh2⟩
    refine ⟨r, hr, ?_⟩
    rw [Bool.and_eq_true, dateLe_iff, dateLe_iff]
    exact ⟨hh1, hh2⟩

/-- Witness for the amended C3 at kind `yearly`, 2024-06-15: the period
start is the date itself and a record later in the month completes it. -/
theorem c3_unknown_kind_amended_witness :
    get_current_period_start kindYearly ⟨2024, 6, 15⟩ = ⟨2024, 6, 15⟩ ∧
    is_habit_completed_in_period [⟨2024, 6, 20⟩] kindYearly ⟨2024, 6, 15⟩ = true := by
  have h := c3_unknown_kind_amended [⟨2024, 6, 20⟩] kindYearly ⟨2024, 6, 15⟩
    (by decide) (by decide) (by decide) (by decide)
  exact ⟨h.1, h.2.mpr ⟨⟨2024, 6, 20⟩, by decide, by decide, by decide⟩⟩

/-- Claim C7: marking a habit done is idempotent within a period. For each
recurrence kind: if the current period already holds a completion record,
mark-done leaves the record set unchanged and reports already-done; if not,
exactly one record (today) is appended; and marking again right away always
reports already-done without inserting. -/
theorem c7_mark_done_idempotent (records : List PyDate) (today : PyDate)
    (ht : ValidDate today) :
    (is_habit_completed_in_period records kindDaily today = true →
      markDoneDaily records today = (records, MarkOutcome.alreadyDone)) ∧
    (is_habit_completed_in_period records kindDaily today = false →
      markDoneDaily records today = (records ++ [today], MarkOutcome.marked)) ∧
    (markDoneDaily (markDoneDaily records today).1 today =
      ((markDoneDaily records today).1, MarkOutcome.alreadyDone)) ∧
    (is_habit_completed_in_period records kindWeekly today = true →
      markDoneWeekly records today = (records, MarkOutcome.alreadyDone)) ∧
    (is_habit_completed_in_period records kindWeekly today = false →
      markDoneWeekly records today = (records ++ [today], MarkOutcome.marked)) ∧
    (markDoneWeekly (markDoneWeekly records today).1 today =
      ((markDoneWeekly records today).1, MarkOutcome.alreadyDone)) ∧
    (is_habit_completed_in_period records kindMonthly today = true →
      markDoneMonthly records today = (records, MarkOutcome.alreadyDone)) ∧
    (is_habit_completed_in_period records kindMonthly today = false →
      markDoneMonthly records today = (records ++ [today], MarkOutcome.marked)) ∧
    (markDoneMonthly (markDoneMonthly records today).1 today =
      ((markDoneMonthly records today).1, MarkOutcome.alreadyDone)) := by
  have hgd : is_habit_completed_in_period records kindDaily today =
      records.any (fun r => r == today) := rfl
  have hgw : is_habit_completed_in_period records kindWeekly today =
      records.any (fun r => dateLe (get_current_period_start kindWeekly today) r &&
        dateLe r (addDays (get_current_period_start kindWeekly today) 6)) := rfl
  have hgm : is_habit_completed_in_period records kindMonthly today =
      records.any (fun r => dateLe (get_current_period_start kindMonthly today) r &&
        dateLe r (monthlyPeriodEnd (get_current_period_start kindMonthly today))) := rfl
  have hwself : (dateLe (get_current_period_start kindWeekly today) today &&
      dateLe today (addDays (get_current_period_start kindWeekly today) 6)) = true := by
    rw [Bool.and_eq_true, dateLe_iff, dateLe_iff, gcps_weekly]
    have hs := weekly_start_facts today ht
    have he := weekly_end_facts today ht
    have hwc := weekday_cast today
    rw [hs.2, he.2]
    omega
  have hmself : (dateLe (get_current_period_start kindMonthly today) today &&
      dateLe today (monthlyPeriodEnd (get_current_period_start kindMonthly today))) = true := by
    have hv := ht
    obtain ⟨hy, hm, hm2, hd, hd2⟩ := hv
    rw [Bool.and_eq_true, dateLe_iff, dateLe_iff, gcps_monthly,
      monthlyPeriodEnd_eq ⟨today.year, today.month, 1⟩ hm hm2]
    constructor
    · unfold toOrd; dsimp only; omega
    · unfold toOrd; dsimp only; omega
  refine ⟨?_, ?_, ?_, ?_, ?_, ?_, ?_, ?_, ?_⟩
  · intro h
    rw [hgd] at h
    unfold markDoneDaily
    rw [if_pos h]
  · intro h
    rw [hgd] at h
    unfold markDoneDaily
    rw [if_neg (by simp [h])]
  · by_cases hg : records.any (fun r => r == today) = true
    · have h1 : markDoneDaily records today = (records, MarkOutcome.alreadyDone) := by
        unfold markDoneDaily; rw [if_pos hg]
      rw [h1]
      unfold markDoneDaily
      rw [if_pos hg]
    · have h1 : markDoneDaily records today = (records ++ [today], MarkOutcome.marked) := by
        unfold markDoneDaily; rw [if_neg hg]
      rw [h1]
      have hg2 : (records ++ [today]).any (fun r => r == today) = true := by
        rw [List.any_append]
        simp
      unfold markDoneDaily
      rw [if_pos hg2]
  · intro h
    rw [hgw] at h
    unfold markDoneWeekly
    rw [if_pos h]
  · intro h
    rw [hgw] at h
    unfold markDoneWeekly
    rw [if_neg (by simp [h])]
  · by_cases hg : records.any (fun r => dateLe (get_current_period_start kindWeekly today) r &&
        dateLe r (addDays (get_current_period_start kindWeekly today) 6)) = true
    · have h1 : markDoneWeekly records today = (records, MarkOutcome.alreadyDone) := by
        unfold markDoneWeekly; rw [if_pos hg]
      rw [h1]
      unfold markDoneWeekly
      rw [if_pos hg]
    · have h1 : markDoneWeekly records today = (records ++ [today], MarkOutcome.marked) := by
        unfold markDoneWeekly; rw [if_neg hg]
      rw [h1]
      have hg2 : (records ++ [today]).any
          (fun r => dateLe (get_current_period_start kindWeekly today) r &&
            dateLe r (addDays (get_current_period_start kindWeekly today) 6)) = true := by
        rw [List.any_append]
        simp [hwself]
      unfold markDoneWeekly
      rw [if_pos hg2]
  · intro h
    rw [hgm] at h
    unfold markDoneMonthly
    rw [if_pos h]
  · intro h
    rw [hgm] at h
    unfold markDoneMonthly
    rw [if_neg (by simp [h])]
  · by_cases hg : records.any (fun r => dateLe (get_current_period_start kindMonthly today) r &&
        dateLe r (monthlyPeriodEnd (get_current_period_start kindMonthly today))) = true
    · have h1 : markDoneMonthly records today = (records, MarkOutcome.alreadyDone) := by
        unfold markDoneMonthly; rw [if_pos hg]
      rw [h1]
      unfold markDoneMonthly
      rw [if_pos hg]
    · have h1 : markDoneMonthly records today = (records ++ [today], MarkOutcome.marked) := by
        unfold markDoneMonthly; rw [if_neg hg]
      rw [h1]
      have hg2 : (records ++ [today]).any
          (fun r => dateLe (get_current_period_start kindMonthly today) r &&
            dateLe r (monthlyPeriodEnd (get_current_period_start kindMonthly today))) = true := by
        rw [List.any_append]
        simp [hmself]
      unfold markDoneMonthly
      rw [if_pos hg2]

/-- Witness for C7: marking a fresh daily habit inserts exactly one record;
a weekly mark on an already-satisfied week reports already-done and keeps
the record set unchanged. -/
theorem c7_mark_done_idempotent_witness :
    markDoneDaily ([] : List PyDate) ⟨2024, 5, 17⟩ =
      ([⟨2024, 5, 17⟩], MarkOutcome.marked) ∧
    markDoneWeekly [⟨2024, 5, 17⟩] ⟨2024, 5, 17⟩ =
      ([⟨2024, 5, 17⟩], MarkOutcome.alreadyDone) := by
  constructor
  · exact (c7_mark_done_idempotent ([] : List PyDate) ⟨2024, 5, 17⟩
      (by decide)).2.1 (by decide)
  · exact (c7_mark_done_idempotent [⟨2024, 5, 17⟩] ⟨2024, 5, 17⟩
      (by decide)).2.2.2.1 (by decide)

/-! ### Streak claims -/

theorem hasRun_congr {l1 l2 : List Int} (h : ∀ x : Int, x ∈ l1 ↔ x ∈ l2)
    (a : Int) (k : Nat) : hasRun l1 a k ↔ hasRun l2 a k := by
  unfold hasRun
  constructor
  · intro hh j hj
    exact (h _).mp (hh j hj)
  · intro hh j hj
    exact (h _).mpr (hh j hj)

/-- Counterexample to Claim C1 as stated: with stored check-in days `{0, 1}`
and today = 0, today itself has a check-in and today - 1 does not, so the
claim's characterization of the current streak (number of consecutive days
ending at today that appear) gives 1 — but the code returns 0, because its
backward walk starts at the future-dated entry 1. -/
theorem c1_streak_counterexample :
    (get_streak [0, 1] 0).1 = 0 ∧ (0 : Int) ∈ ([0, 1] : List Int) ∧
      ((0 : Int) - 1) ∉ ([0, 1] : List Int) := by
  decide

/-- Claim C1 (amended): provided no stored date lies after today, the streak
calculator returns (0, 0) on an empty collection; on a nonempty collection
the longest streak is the length of the longest run of consecutive calendar
days present (at least 1), and the current streak counts the consecutive
days today, today-1, ... that all appear, stopping at the first missing day
(0 whenever today itself is absent). -/
theorem c1_streak_amended (stored : List Int) (today : Int)
    (hle : ∀ d ∈ stored, d ≤ today) :
    (stored = [] → get_streak stored today = (0, 0)) ∧
    (stored ≠ [] →
      1 ≤ (get_streak stored today).2 ∧
      (∃ a : Int, hasRun stored a (get_streak stored today).2) ∧
      (∀ (a : Int) (k : Nat), hasRun stored a k → k ≤ (get_streak stored today).2) ∧
      (∀ j : Nat, j < (get_streak stored today).1 → today - (j : Int) ∈ stored) ∧
      today - ((get_streak stored today).1 : Int) ∉ stored ∧
      (today ∉ stored → (get_streak stored today).1 = 0)) := by
  constructor
  · intro h
    subst h
    rfl
  · intro hne
    obtain ⟨x, hx⟩ := List.exists_mem_of_ne_nil stored hne
    have hmm : ∀ z : Int, z ∈ sortedDates stored ↔ z ∈ stored := fun z => mem_sortedDates
    have hpl := sortedDates_pairwise_lt stored
    rcases hlist : sortedDates stored with _ | ⟨p, tl⟩
    · exact absurd ((hmm x).mpr hx) (by rw [hlist]; exact List.not_mem_nil x)
    · rw [hlist] at hpl hmm
      have hres : get_streak stored today =
          (currentLoop (p :: tl).reverse today 0, longestLoop tl p 1 1) := by
        unfold get_streak
        rw [hlist]
        rfl
      have hpmem : p ∈ p :: tl := List.mem_cons_self p tl
      have hptl : ∀ z ∈ tl, p < z := (List.pairwise_cons.mp hpl).1
      -- longest streak: lower bound 1
      have hlong1 : 1 ≤ longestLoop tl p 1 1 := longestLoop_le tl p 1 1
      -- longest streak soundness
      have hsound : ∃ a, hasRun (p :: tl) a (longestLoop tl p 1 1) := by
        apply longestLoop_sound (p :: tl) tl p 1 1
          (fun z hz => List.mem_cons_of_mem p hz)
        · intro j hj
          have : j = 0 := by omega
          subst this
          simp
        · refine ⟨p, fun j hj => ?_⟩
          have : j = 0 := by omega
          subst this
          simp
      -- longest streak completeness
      have hcomp : ∀ (a : Int) (k : Nat), hasRun (p :: tl) a k →
          k ≤ longestLoop tl p 1 1 := by
        apply longestLoop_complete (p :: tl) tl p 1 1 hpl
        · intro z hz
          rcases List.mem_cons.mp hz with rfl | hz2
          · exact Or.inl (le_refl z)
          · exact Or.inr hz2
        · exact le_refl 1
        · exact le_refl 1
        · intro hmem
          rcases List.mem_cons.mp hmem with heq | hin
          · omega
          · have := hptl _ hin
            omega
        · intro a k hr hak
          rcases Nat.lt_or_ge k 2 with h1 | h2
          · omega
          · exfalso
            have hend := hr (k - 1) (by omega)
            have hend2 := hr (k - 2) (by omega)
            have he1 : a + ((k - 1 : Nat) : Int) ≤ p := by
              rcases List.mem_cons.mp hend with heq | hin
              · omega
              · have := hptl _ hin
                omega
            have he3 : a + ((k - 2 : Nat) : Int) = a + ((k - 1 : Nat) : Int) - 1 := by
              omega
            rcases List.mem_cons.mp hend2 with heq | hin
            · omega
            · have := hptl _ hin
              omega
      -- current streak
      have hcur := currentLoop_spec (p :: tl) today (p :: tl).reverse 0 today
        (by norm_num)
        (fun z hz => List.mem_reverse.mp hz)
        (List.pairwise_reverse.mpr hpl)
        (fun z hz => hle z ((hmm z).mp (List.mem_reverse.mp hz)))
        (fun z hz _ => List.mem_reverse.mpr hz)
        (fun j hj => absurd hj (by omega))
      rw [hres]
      dsimp only
      refine ⟨hlong1, ?_, ?_, ?_, ?_, ?_⟩
      · obtain ⟨a, ha⟩ := hsound
        exact ⟨a, (hasRun_congr hmm a _).mp ha⟩
      · intro a k hk
        exact hcomp a k ((hasRun_congr hmm a k).mpr hk)
      · intro j hj
        exact (hmm _).mp (hcur.1 j hj)
      · intro hmem
        exact hcur.2 ((hmm _).mpr hmem)
      · intro htoday
        by_contra hnz
        have h1 : 1 ≤ currentLoop (p :: tl).reverse today 0 := by omega
        have := hcur.1 0 (by omega)
        simp only [Nat.cast_zero, sub_zero] at this
        exact htoday ((hmm _).mp this)

/-- Witness for the amended C1 at stored = {0, 1, 2}, today = 2: all days of
the computed current streak appear and the day past it is missing. -/
theorem c1_streak_amended_witness :
    (∀ j : Nat, j < (get_streak [0, 1, 2] 2).1 →
      (2 : Int) - (j : Int) ∈ ([0, 1, 2] : List Int)) ∧
    (2 : Int) - ((get_streak [0, 1, 2] 2).1 : Int) ∉ ([0, 1, 2] : List Int) := by
  have h := (c1_streak_amended [0, 1, 2] 2 (by decide)).2 (by decide)
  exact ⟨h.2.2.2.1, h.2.2.2.2.1⟩

/-- Claim C4: the streak calculator result does not depend on the order or
duplication of the stored check-in rows — it agrees with the result on the
ascending-sorted, duplicate-free version of the input (the `SELECT DISTINCT
... ORDER BY date ASC` step inside `get_streak` performs exactly this
normalization). -/
theorem c4_streak_input_normalization (stored : List Int) (today : Int) :
    get_streak stored today = get_streak (sortedDates stored) today := by
  unfold get_streak
  rw [sortedDates_idem]

/-- Claim C10: whenever some stored check-in date lies strictly after today,
the current streak is 0 — the backward walk starts at the largest stored
date, fails its first comparison with today, and never reaches today. -/
theorem c10_future_checkin_zeroes_current (stored : List Int) (today : Int)
    (h : ∃ d ∈ stored, today < d) :
    (get_streak stored today).1 = 0 := by
  obtain ⟨d, hd, hlt⟩ := h
  have hds : d ∈ sortedDates stored := mem_sortedDates.mpr hd
  have hpl := sortedDates_pairwise_lt stored
  rcases hlist : sortedDates stored with _ | ⟨p, tl⟩
  · rw [hlist] at hds
    exact absurd hds (List.not_mem_nil d)
  · rw [hlist] at hds hpl
    have hres : get_streak stored today =
        (currentLoop (p :: tl).reverse today 0, longestLoop tl p 1 1) := by
      unfold get_streak
      rw [hlist]
      rfl
    rw [hres]
    dsimp only
    have hpwr : List.Pairwise (fun a b : Int => b < a) ((p :: tl).reverse) :=
      List.pairwise_reverse.mpr hpl
    have hdr : d ∈ (p :: tl).reverse := List.mem_reverse.mpr hds
    rcases hrev : (p :: tl).reverse with _ | ⟨M, rest⟩
    · exfalso
      have : ((p :: tl).reverse).length = 0 := by rw [hrev]; rfl
      simp at this
    · rw [hrev] at hpwr hdr
      have hMrest : ∀ z ∈ rest, z < M := (List.pairwise_cons.mp hpwr).1
      have hdM : d ≤ M := by
        rcases List.mem_cons.mp hdr with rfl | hin
        · exact le_refl d
        · exact le_of_lt (hMrest _ hin)
      have hM : ¬ M = today := by omega
      simp only [currentLoop]
      rw [if_neg hM]

/-- Witness for C10: stored = {2, 3, 4, 9}, today = 4 — the run 2, 3, 4 ends
exactly at today, yet the future-dated 9 zeroes the current streak. -/
theorem c10_future_checkin_zeroes_current_witness :
    (get_streak [2, 3, 4, 9] 4).1 = 0 :=
  c10_future_checkin_zeroes_current [2, 3, 4, 9] 4 ⟨9, by decide, by decide⟩

/-! ### Calendar and goal claims -/

/-- Claim C8: for every year and every status-by-date mapping, the rendered
year grid covers January 1 through December 31: the traversed dates are
exactly the days of the year in strict ascending order, each appearing in
exactly one cell; rows hold 14 days each (two blocks of 7) with only the
final row possibly short; the row count is ceil(day_count / 14) = 27; and
the glyph grid is the pointwise rendering of the date grid. -/
theorem c8_year_grid (y : Nat) (rating : Int → Option Nat) :
    ((yearRows y).flatten = (List.range (365 + (if isLeap y then 1 else 0))).map
      (fun i : Nat => toOrd (yearStart y) + (i : Int))) ∧
    ((yearRows y).length = 27) ∧
    ((365 + (if isLeap y then 1 else 0) + 13) / 14 = 27) ∧
    (∀ row ∈ (yearRows y).dropLast, row.length = 14) ∧
    (∀ row ∈ yearRows y, 1 ≤ row.length ∧ row.length ≤ 14) ∧
    (∀ d : Int, toOrd (yearStart y) ≤ d → d ≤ toOrd (yearEnd y) →
      (yearRows y).flatten.count d = 1) ∧
    List.Pairwise (fun a b : Int => a < b) (yearRows y).flatten ∧
    myyearGrid y rating =
      (yearRows y).map (fun row => row.map (fun d => moodColor (rating d))) := by
  have hspan := yearSpan y
  have hce : toOrd (yearStart y) ≤ toOrd (yearEnd y) := by
    split_ifs at hspan <;> omega
  have hnn : (toOrd (yearEnd y) + 1 - toOrd (yearStart y)).toNat =
      365 + (if isLeap y then 1 else 0) := by
    split_ifs at hspan ⊢ <;> omega
  have hle : (toOrd (yearEnd y) + 1 - toOrd (yearStart y)).toNat ≤ 14 * 27 := by
    rw [hnn]
    split_ifs <;> omega
  obtain ⟨hflat, hlen, hdrop, hall⟩ :=
    weekRows_spec 27 (toOrd (yearStart y)) (toOrd (yearEnd y)) hce hle
  rw [hnn] at hflat hlen
  have hyr : yearRows y = weekRows 27 (toOrd (yearStart y)) (toOrd (yearEnd y)) := rfl
  have hinj : Function.Injective (fun i : Nat => toOrd (yearStart y) + (i : Int)) := by
    intro a b hab
    simp only at hab
    omega
  have hnodup : ((yearRows y).flatten).Nodup := by
    rw [hyr, hflat]
    exact (List.nodup_range _).map hinj
  refine ⟨by rw [hyr, hflat], ?_, ?_, by rw [hyr]; exact hdrop,
    by rw [hyr]; exact hall, ?_, ?_, rfl⟩
  · rw [hyr, hlen]
    split_ifs <;> norm_num
  · split_ifs <;> norm_num
  · intro d h1 h2
    have hmem : d ∈ (yearRows y).flatten := by
      rw [hyr, hflat, List.mem_map]
      refine ⟨(d - toOrd (yearStart y)).toNat, ?_, ?_⟩
      · rw [List.mem_range]
        split_ifs at hspan ⊢ <;> omega
      · show toOrd (yearStart y) + ((d - toOrd (yearStart y)).toNat : Int) = d
        omega
    have hc1 : (yearRows y).flatten.count d ≤ 1 :=
      List.nodup_iff_count_le_one.mp hnodup d
    have hc2 : 0 < (yearRows y).flatten.count d := List.count_pos_iff.mpr hmem
    omega
  · rw [hyr, hflat, List.pairwise_map]
    refine List.Pairwise.imp ?_ (List.pairwise_lt_range _)
    intro a b hab
    omega

/-- Witness for C8: the leap year 2024 renders in exactly 27 rows. -/
theorem c8_year_grid_witness : (yearRows 2024).length = 27 :=
  (c8_year_grid 2024 (fun _ => none)).2.1

/-- Counterexample to Claim C9 as stated: the update operation accepts the
increment -1 (any int parses), and applied to a goal with progress 0 and
total 10 it drives progress to LEAST(0 + -1, 10) = -1 < 0. -/
theorem c9_goal_progress_counterexample :
    updategoal 0 10 (-1) < 0 ∧ (0 : Int) ≤ 0 ∧ (0 : Int) < 10 := by
  decide

/-- Claim C9 (amended): for every goal state with progress >= 0 and
total > 0, and every NON-NEGATIVE increment, the updated progress
LEAST(progress + increment, total) remains >= 0. -/
theorem c9_goal_progress_amended (progress total increment : Int)
    (hp : 0 ≤ progress) (htot : 0 < total) (hinc : 0 ≤ increment) :
    0 ≤ updategoal progress total increment := by
  unfold updategoal
  rcases le_total (progress + increment) total with h | h
  · rw [min_eq_left h]
    omega
  · rw [min_eq_right h]
    omega

/-- Witness for the amended C9 at progress 0, total 10, increment 5. -/
theorem c9_goal_progress_amended_witness : 0 ≤ updategoal 0 10 5 :=
  c9_goal_progress_amended 0 10 5 (by norm_num) (by norm_num) (by norm_num)

-- Sanity examples (model calibration against known Python values):
-- 2024-01-01 has toordinal 738886 and is a Monday; 2024-05-17 is a Friday.
example : toOrd ⟨2024, 1, 1⟩ = 738886 := by decide
example : weekday ⟨2024, 1, 1⟩ = 0 := by decide
example : weekday ⟨2024, 5, 17⟩ = 4 := by decide
example : toOrd ⟨1, 1, 1⟩ = 1 := by decide
example : get_streak [0, 1] 0 = (0, 2) := by decide
example : get_streak [3, 1, 2, 7, 1] 3 = (0, 3) := by decide
example : get_streak [3, 1, 2, 1] 3 = (3, 3) := by decide
example : get_streak [] 5 = (0, 0) := by rfl
